import Mathlib

/-!
Verification of the partial-events merger of `src/sources/kubernetes_logs/partial_events_merger.rs`.

Shallow embedding notes:
* A VRL `Value` is modelled by the variants the merger inspects: `bytes`
  (a byte payload, modelled as `List Nat`), `boolean`, and `integer`
  standing in for every other (non-bytes, non-boolean) variant — the
  merger treats all of those identically (its `if let Value::Bytes`
  patterns fail on them).
* A `LogEvent` is a finite map from field paths (`OwnedTargetPath`,
  modelled as `String`) to `Value`, as an association list.
* `Instant` is modelled as `Nat`; `Instant::now()` becomes an explicit
  `now` argument threaded into the functions that call it.
* `HashMap<String, Bucket>` is modelled as an association list with
  unique keys.  The list order models the map's iteration order, which
  for a Rust `HashMap` is arbitrary (randomized hashing): a property of
  an order-sensitive operation holds of the code only if it holds for
  every list arrangement, and any arrangement is a possible state.
  `HashMap::insert` of a fresh key is modelled by appending; the real
  map gives the new entry an arbitrary position, so no theorem below
  relies on where the appended entry sits.
-/

set_option autoImplicit false

namespace PartialEventsMerger

/-- The VRL value variants the merger distinguishes: byte payloads,
booleans (for the partial flag), and `integer` standing in for every
other non-bytes variant. -/
inductive Value where
  | bytes (data : List Nat)
  | boolean (b : Bool)
  | integer (i : Int)
  deriving DecidableEq, Repr

/-- Association-list lookup of a field value by path (first match), the
model of `LogEvent::get`. -/
def getField : List (String × Value) → String → Option Value
  | [], _ => none
  | f :: rest, path => if f.1 = path then some f.2 else getField rest path

/-- In-place update of an existing field (the model of writing through
`LogEvent::get_mut`); paths not present are left absent. -/
def setField : List (String × Value) → String → Value → List (String × Value)
  | [], _, _ => []
  | f :: rest, path, v => (if f.1 = path then (f.1, v) else f) :: setField rest path v

/-- A log record: a finite map from field paths to values. -/
structure LogEvent where
  fields : List (String × Value)
  deriving DecidableEq, Repr

/-- Model of `LogEvent::get` at a target path. -/
def LogEvent.get (e : LogEvent) (path : String) : Option Value :=
  getField e.fields path

/-- Model of writing a value through `LogEvent::get_mut` at a target
path that is present. -/
def LogEvent.set (e : LogEvent) (path : String) (v : Value) : LogEvent :=
  ⟨setField e.fields path v⟩

/-- `Bucket` (partial_events_merger.rs lines 124–128). -/
structure Bucket where
  event : LogEvent
  expiration : Nat
  exceeds_max_merged_line_limit : Bool
  deriving DecidableEq, Repr

/-- The diagnostic emitted through `emit!` when a merged line crosses
the configured ceiling (mirrors the fields of the internal event of the
same name). -/
structure KubernetesMergedLineTooBigError where
  event : Value
  configured_limit : Nat
  encountered_size_so_far : Nat
  deriving DecidableEq, Repr

/-- `PartialEventMergeState` (lines 22–25): the key → Bucket map plus
the optional byte ceiling. -/
structure PartialEventMergeState where
  buckets : List (String × Bucket)
  maybe_max_merged_line_bytes : Option Nat
  deriving DecidableEq, Repr

/-- First-match lookup in the buckets map, the model of
`HashMap::get` / `get_mut` on unique-key maps. -/
def bucketsGet : List (String × Bucket) → String → Option Bucket
  | [], _ => none
  | p :: rest, k => if p.1 = k then some p.2 else bucketsGet rest k

/-- Replace the bucket stored at key `k` (the model of mutating through
`HashMap::get_mut`: the entry keeps its position in iteration order). -/
def bucketsSet : List (String × Bucket) → String → Bucket → List (String × Bucket)
  | [], _, _ => []
  | p :: rest, k, b => (if p.1 = k then (k, b) else p) :: bucketsSet rest k b

/-- Delete the entry at key `k` (the model of `HashMap::remove`). -/
def bucketsRemove : List (String × Bucket) → String → List (String × Bucket)
  | [], _ => []
  | p :: rest, k => if p.1 = k then bucketsRemove rest k else p :: bucketsRemove rest k

/-- `PartialEventMergeState::add_event` (lines 28–95).  `now` models the
`Instant::now()` call at line 90; the returned list holds the
`KubernetesMergedLineTooBigError` diagnostics emitted during the call
(empty or a singleton). -/
def add_event (s : PartialEventMergeState) (event : LogEvent) (file : String)
    (message_path : String) (expiration_time : Nat) (now : Nat) :
    PartialEventMergeState × List KubernetesMergedLineTooBigError :=
  match bucketsGet s.buckets file with
  | some bucket =>
    -- don't bother continuing to process new partial events that match
    -- existing ones that are already too big (lines 38–40)
    if bucket.exceeds_max_merged_line_limit then (s, [])
    else
      -- merging with existing event (lines 44–64)
      match bucket.event.get message_path, event.get message_path with
      | some (Value.bytes prev_value), some (Value.bytes new_value) =>
        let bytes_mut := prev_value ++ new_value
        -- drop event if it's bigger than max allowed (lines 51–61)
        let check : Bool × List KubernetesMergedLineTooBigError :=
          match s.maybe_max_merged_line_bytes with
          | some max_merged_line_bytes =>
            if bytes_mut.length > max_merged_line_bytes then
              (true, [{ event := Value.bytes new_value,
                        configured_limit := max_merged_line_bytes,
                        encountered_size_so_far := bytes_mut.length }])
            else (false, [])
          | none => (false, [])
        let bucket' : Bucket :=
          { event := bucket.event.set message_path (Value.bytes bytes_mut),
            expiration := bucket.expiration,
            exceeds_max_merged_line_limit := check.1 }
        ({ s with buckets := bucketsSet s.buckets file bucket' }, check.2)
      | _, _ => (s, [])
  | none =>
    -- new event (lines 66–93)
    let check : Bool × List KubernetesMergedLineTooBigError :=
      match event.get message_path with
      | some (Value.bytes event_bytes) =>
        match s.maybe_max_merged_line_bytes with
        | some max_merged_line_bytes =>
          if event_bytes.length > max_merged_line_bytes then
            (true, [{ event := Value.bytes event_bytes,
                      configured_limit := max_merged_line_bytes,
                      encountered_size_so_far := event_bytes.length }])
          else (false, [])
        | none => (false, [])
      | _ => (false, [])
    ({ s with
        buckets := s.buckets ++
          [(file, { event := event,
                    expiration := now + expiration_time,
                    exceeds_max_merged_line_limit := check.1 })] },
     check.2)

/-- `PartialEventMergeState::remove_event` (lines 97–102). -/
def remove_event (s : PartialEventMergeState) (file : String) :
    PartialEventMergeState × Option LogEvent :=
  match bucketsGet s.buckets file with
  | none => (s, none)
  | some bucket =>
    ({ s with buckets := bucketsRemove s.buckets file },
     if bucket.exceeds_max_merged_line_limit then none else some bucket.event)

/-- `PartialEventMergeState::emit_expired_events` (lines 104–113): the
`retain` sweep keeps the non-expired buckets and, in map iteration
order, emits each expired bucket that is not over-limit.  The returned
list is what went through the `Emitter`. -/
def emit_expired_events (s : PartialEventMergeState) (now : Nat) :
    PartialEventMergeState × List LogEvent :=
  ({ s with buckets := s.buckets.filter (fun p => !(decide (now ≥ p.2.expiration))) },
   (s.buckets.filter
      (fun p => decide (now ≥ p.2.expiration) && !p.2.exceeds_max_merged_line_limit)).map
     (fun p => p.2.event))

/-- `PartialEventMergeState::flush_events` (lines 115–121): drain every
bucket, emitting the ones not over-limit. -/
def flush_events (s : PartialEventMergeState) :
    PartialEventMergeState × List LogEvent :=
  ({ s with buckets := [] },
   (s.buckets.filter (fun p => !p.2.exceeds_max_merged_line_limit)).map
     (fun p => p.2.event))

/-- The over-limit flag of the bucket at `k`, read as `false` when no
bucket is present (an absent key has no flagged chain). -/
def flagOf (s : PartialEventMergeState) (k : String) : Bool :=
  match bucketsGet s.buckets k with
  | some b => b.exceeds_max_merged_line_limit
  | none => false

/-- Sequential `add_event` calls for one grouping key (a chain's
fragments in arrival order), collecting the diagnostics emitted. -/
def add_chain (s : PartialEventMergeState) (events : List LogEvent) (file : String)
    (message_path : String) (expiration_time : Nat) (now : Nat) :
    PartialEventMergeState × List KubernetesMergedLineTooBigError :=
  match events with
  | [] => (s, [])
  | e :: rest =>
    let step := add_event s e file message_path expiration_time now
    let restRes := add_chain step.1 rest file message_path expiration_time now
    (restRes.1, step.2 ++ restRes.2)

/-- The per-item handler of `merge_partial_events_with_custom_expiration`
(lines 175–196), after the partial flag and grouping key have been
resolved: `add_event` always runs, and a non-partial item completes the
chain through `remove_event`, emitting the merged record when one is
returned.  The last component is the list of records emitted. -/
def handle_classified_event (s : PartialEventMergeState) (event : LogEvent)
    (isPartialFlag : Bool) (file : String) (message_path : String)
    (expiration_time : Nat) (now : Nat) :
    PartialEventMergeState × List KubernetesMergedLineTooBigError × List LogEvent :=
  let step := add_event s event file message_path expiration_time now
  if isPartialFlag then (step.1, step.2, [])
  else
    match remove_event step.1 file with
    | (s2, some log_event) => (s2, step.2, [log_event])
    | (s2, none) => (s2, step.2, [])

/-- Drive one chain through the per-item handler: the fragments in
`frags` arrive flagged partial, then `terminator` arrives non-partial.
Returns the final state and every record emitted along the way. -/
def run_chain (s : PartialEventMergeState) (frags : List LogEvent)
    (terminator : LogEvent) (file : String) (message_path : String)
    (expiration_time : Nat) (now : Nat) :
    PartialEventMergeState × List LogEvent :=
  match frags with
  | [] =>
    let r := handle_classified_event s terminator false file message_path expiration_time now
    (r.1, r.2.2)
  | e :: rest =>
    let r := handle_classified_event s e true file message_path expiration_time now
    let rr := run_chain r.1 rest terminator file message_path expiration_time now
    (rr.1, r.2.2 ++ rr.2)

/-- The byte payload stored at `message_path`, read as empty when the
field is missing or not bytes. -/
def messageBytes (e : LogEvent) (message_path : String) : List Nat :=
  match e.get message_path with
  | some (Value.bytes b) => b
  | _ => []

/-- Whether the record's message field resolves to a byte payload. -/
def hasBytesMessage (e : LogEvent) (message_path : String) : Bool :=
  match e.get message_path with
  | some (Value.bytes _) => true
  | _ => false

/-- Whether a payload of `len` bytes is within the optional ceiling
(`none` means unbounded). -/
def underLimit (maybe_max : Option Nat) (len : Nat) : Bool :=
  match maybe_max with
  | some m => decide (len ≤ m)
  | none => true

/-- The over-limit test of the `check` branches of `add_event`: whether
a payload of `len` bytes is strictly larger than the optional ceiling. -/
def limitHit (maybe_max : Option Nat) (len : Nat) : Bool :=
  match maybe_max with
  | some m => decide (len > m)
  | none => false

/-- The diagnostics of the `check` branches of `add_event`: one
size-exceeded diagnostic exactly when the ceiling is configured and
crossed. -/
def limitDiag (maybe_max : Option Nat) (ctx : List Nat) (len : Nat) :
    List KubernetesMergedLineTooBigError :=
  match maybe_max with
  | some m =>
    if len > m then
      [{ event := Value.bytes ctx, configured_limit := m,
         encountered_size_so_far := len }]
    else []
  | none => []

/-- Over-limit flag computed by the new-event branch of `add_event`
from the incoming message value. -/
def newEventHit (maybe_max : Option Nat) (mv : Option Value) : Bool :=
  match mv with
  | some (Value.bytes b) => limitHit maybe_max b.length
  | _ => false

/-- Diagnostics emitted by the new-event branch of `add_event` from the
incoming message value. -/
def newEventDiag (maybe_max : Option Nat) (mv : Option Value) :
    List KubernetesMergedLineTooBigError :=
  match mv with
  | some (Value.bytes b) => limitDiag maybe_max b b.length
  | _ => []

theorem getField_setField_self (l : List (String × Value)) (path : String) (v w : Value)
    (h : getField l path = some w) : getField (setField l path v) path = some v := by
  induction l with
  | nil => simp [getField] at h
  | cons f rest ih =>
    by_cases hf : f.1 = path
    · simp [getField, setField, hf]
    · simp only [getField, setField, hf, if_false, if_neg hf] at h ⊢
      exact ih h

theorem getField_setField_ne (l : List (String × Value)) (p q : String) (v : Value)
    (h : q ≠ p) : getField (setField l p v) q = getField l q := by
  induction l with
  | nil => simp [setField]
  | cons f rest ih =>
    by_cases hf : f.1 = p
    · have hpq : ¬(p = q) := fun hh => h hh.symm
      simp [getField, setField, hf, hpq, ih]
    · by_cases hq : f.1 = q
      · simp [getField, setField, hf, hq, h]
      · simp [getField, setField, hf, hq, ih]

theorem LogEvent.get_set_self (e : LogEvent) (path : String) (v w : Value)
    (h : e.get path = some w) : (e.set path v).get path = some v :=
  getField_setField_self e.fields path v w h

theorem LogEvent.get_set_ne (e : LogEvent) (p q : String) (v : Value)
    (h : q ≠ p) : (e.set p v).get q = e.get q :=
  getField_setField_ne e.fields p q v h

theorem bucketsGet_set_self (l : List (String × Bucket)) (k : String) (b b' : Bucket)
    (h : bucketsGet l k = some b) : bucketsGet (bucketsSet l k b') k = some b' := by
  induction l with
  | nil => simp [bucketsGet] at h
  | cons p rest ih =>
    by_cases hp : p.1 = k
    · simp [bucketsGet, bucketsSet, hp]
    · simp only [bucketsGet, bucketsSet, if_neg hp] at h ⊢
      exact ih h

theorem bucketsGet_append_self (l : List (String × Bucket)) (k : String) (b : Bucket)
    (h : bucketsGet l k = none) : bucketsGet (l ++ [(k, b)]) k = some b := by
  induction l with
  | nil => simp [bucketsGet]
  | cons p rest ih =>
    by_cases hp : p.1 = k
    · simp [bucketsGet, hp] at h
    · simp only [bucketsGet, if_neg hp] at h
      simp only [List.cons_append, bucketsGet, if_neg hp]
      exact ih h

theorem bucketsGet_remove_self (l : List (String × Bucket)) (k : String) :
    bucketsGet (bucketsRemove l k) k = none := by
  induction l with
  | nil => rfl
  | cons p rest ih =>
    by_cases hp : p.1 = k
    · simp [bucketsRemove, hp, ih]
    · simp [bucketsRemove, bucketsGet, hp, ih]

theorem bucketsGet_eq_none (l : List (String × Bucket)) (k : String)
    (h : k ∉ l.map Prod.fst) : bucketsGet l k = none := by
  induction l with
  | nil => rfl
  | cons p rest ih =>
    simp only [List.map_cons, List.mem_cons] at h
    push_neg at h
    have h1 : ¬(p.1 = k) := fun hh => h.1 hh.symm
    simp only [bucketsGet, if_neg h1]
    exact ih h.2

theorem bucketsGet_filter_none (P : String × Bucket → Bool) (l : List (String × Bucket))
    (k : String) (h : bucketsGet l k = none) : bucketsGet (l.filter P) k = none := by
  induction l with
  | nil => rfl
  | cons p rest ih =>
    by_cases hp : p.1 = k
    · simp [bucketsGet, hp] at h
    · simp only [bucketsGet, if_neg hp] at h
      by_cases hP : P p = true
      · simp only [List.filter_cons, hP, if_true, bucketsGet, if_neg hp]
        exact ih h
      · simp only [List.filter_cons, hP, if_false]
        exact ih h

theorem bucketsGet_filter (P : String × Bucket → Bool) (l : List (String × Bucket))
    (k : String) (b : Bucket) (hnodup : (l.map Prod.fst).Nodup)
    (h : bucketsGet l k = some b) :
    bucketsGet (l.filter P) k = if P (k, b) then some b else none := by
  induction l with
  | nil => simp [bucketsGet] at h
  | cons p rest ih =>
    rw [List.map_cons, List.nodup_cons] at hnodup
    obtain ⟨a, c⟩ := p
    by_cases hp : a = k
    · subst hp
      simp [bucketsGet] at h
      subst h
      have hrest : bucketsGet rest a = none := bucketsGet_eq_none rest a hnodup.1
      by_cases hP : P (a, c) = true
      · simp [List.filter_cons, hP, bucketsGet]
      · simp only [List.filter_cons, hP, if_false, Bool.false_eq_true]
        exact bucketsGet_filter_none P rest a hrest
    · simp only [bucketsGet, if_neg hp] at h
      by_cases hP : P (a, c) = true
      · simp only [List.filter_cons, hP, if_true, bucketsGet, if_neg hp]
        exact ih hnodup.2 h
      · simp only [List.filter_cons, hP, if_false]
        exact ih hnodup.2 h

theorem add_event_flagged (s : PartialEventMergeState) (e : LogEvent) (k : String)
    (mp : String) (exp now : Nat) (bucket : Bucket)
    (hb : bucketsGet s.buckets k = some bucket)
    (hflag : bucket.exceeds_max_merged_line_limit = true) :
    add_event s e k mp exp now = (s, []) := by
  simp [add_event, hb, hflag]

theorem add_event_merge (s : PartialEventMergeState) (e : LogEvent) (k : String)
    (mp : String) (exp now : Nat) (bucket : Bucket) (p q : List Nat)
    (hb : bucketsGet s.buckets k = some bucket)
    (hflag : bucket.exceeds_max_merged_line_limit = false)
    (hp : bucket.event.get mp = some (Value.bytes p))
    (hq : e.get mp = some (Value.bytes q)) :
    add_event s e k mp exp now =
      ({ s with
          buckets :=
            bucketsSet s.buckets k
              ({ event := bucket.event.set mp (Value.bytes (p ++ q)),
                 expiration := bucket.expiration,
                 exceeds_max_merged_line_limit :=
                   limitHit s.maybe_max_merged_line_bytes (p ++ q).length }) },
       limitDiag s.maybe_max_merged_line_bytes q (p ++ q).length) := by
  cases hm : s.maybe_max_merged_line_bytes with
  | none => simp [add_event, hb, hflag, hp, hq, hm, limitHit, limitDiag]
  | some m =>
    by_cases hlen : m < p.length + q.length
    · simp [add_event, hb, hflag, hp, hq, hm, limitHit, limitDiag, hlen]
    · simp [add_event, hb, hflag, hp, hq, hm, limitHit, limitDiag, hlen]

theorem add_event_merge_noop (s : PartialEventMergeState) (e : LogEvent) (k : String)
    (mp : String) (exp now : Nat) (bucket : Bucket)
    (hb : bucketsGet s.buckets k = some bucket)
    (hflag : bucket.exceeds_max_merged_line_limit = false)
    (hnot : (∀ p, bucket.event.get mp ≠ some (Value.bytes p)) ∨
            (∀ q, e.get mp ≠ some (Value.bytes q))) :
    add_event s e k mp exp now = (s, []) := by
  simp only [add_event, hb, hflag, Bool.false_eq_true, if_false]
  cases hp : bucket.event.get mp with
  | none => cases hq : e.get mp with
    | none => rfl
    | some v => cases v <;> rfl
  | some v =>
    cases v with
    | bytes pb =>
      cases hq : e.get mp with
      | none => rfl
      | some w =>
        cases w with
        | bytes qb =>
          rcases hnot with hnot | hnot
          · exact absurd hp (hnot pb)
          · exact absurd hq (hnot qb)
        | boolean b => rfl
        | integer i => rfl
    | boolean b => cases hq : e.get mp with
      | none => rfl
      | some w => cases w <;> rfl
    | integer i => cases hq : e.get mp with
      | none => rfl
      | some w => cases w <;> rfl

theorem add_event_new (s : PartialEventMergeState) (e : LogEvent) (k : String)
    (mp : String) (exp now : Nat) (hb : bucketsGet s.buckets k = none) :
    add_event s e k mp exp now =
      ({ s with
          buckets :=
            s.buckets ++
              [(k, { event := e, expiration := now + exp,
                     exceeds_max_merged_line_limit :=
                       newEventHit s.maybe_max_merged_line_bytes (e.get mp) })] },
       newEventDiag s.maybe_max_merged_line_bytes (e.get mp)) := by
  simp only [add_event, hb]
  cases he : e.get mp with
  | none => simp [newEventHit, newEventDiag]
  | some v =>
    cases v with
    | bytes b =>
      cases hm : s.maybe_max_merged_line_bytes with
      | none => simp [newEventHit, newEventDiag, limitHit, limitDiag]
      | some m =>
        by_cases hlen : b.length > m
        · simp [newEventHit, newEventDiag, limitHit, limitDiag, hlen]
        · simp [newEventHit, newEventDiag, limitHit, limitDiag, hlen]
    | boolean bb => simp [newEventHit, newEventDiag]
    | integer i => simp [newEventHit, newEventDiag]

theorem limitDiag_ne_nil_iff (maybe_max : Option Nat) (ctx : List Nat) (len : Nat) :
    limitDiag maybe_max ctx len ≠ [] ↔ limitHit maybe_max len = true := by
  cases maybe_max with
  | none => simp [limitDiag, limitHit]
  | some m => by_cases h : len > m <;> simp [limitDiag, limitHit, h]

theorem limitDiag_length_le (maybe_max : Option Nat) (ctx : List Nat) (len : Nat) :
    (limitDiag maybe_max ctx len).length ≤ 1 := by
  cases maybe_max with
  | none => simp [limitDiag]
  | some m => by_cases h : len > m <;> simp [limitDiag, h]

theorem limitHit_eq_false (maybe_max : Option Nat) (len total : Nat)
    (hle : len ≤ total) (hu : underLimit maybe_max total = true) :
    limitHit maybe_max len = false := by
  cases maybe_max with
  | none => rfl
  | some m =>
    simp only [underLimit, decide_eq_true_eq] at hu
    have : ¬(len > m) := by omega
    simp [limitHit, this]

theorem limitDiag_eq_nil (maybe_max : Option Nat) (ctx : List Nat) (len total : Nat)
    (hle : len ≤ total) (hu : underLimit maybe_max total = true) :
    limitDiag maybe_max ctx len = [] := by
  cases maybe_max with
  | none => rfl
  | some m =>
    simp only [underLimit, decide_eq_true_eq] at hu
    have : ¬(len > m) := by omega
    simp [limitDiag, this]

theorem newEventDiag_ne_nil_iff (maybe_max : Option Nat) (mv : Option Value) :
    newEventDiag maybe_max mv ≠ [] ↔ newEventHit maybe_max mv = true := by
  cases mv with
  | none => simp [newEventDiag, newEventHit]
  | some v =>
    cases v with
    | bytes b => exact limitDiag_ne_nil_iff maybe_max b b.length
    | boolean bb => simp [newEventDiag, newEventHit]
    | integer i => simp [newEventDiag, newEventHit]

theorem newEventDiag_length_le (maybe_max : Option Nat) (mv : Option Value) :
    (newEventDiag maybe_max mv).length ≤ 1 := by
  cases mv with
  | none => simp [newEventDiag]
  | some v =>
    cases v with
    | bytes b => exact limitDiag_length_le maybe_max b b.length
    | boolean bb => simp [newEventDiag]
    | integer i => simp [newEventDiag]

theorem flagOf_some (s : PartialEventMergeState) (k : String) (b : Bucket)
    (h : bucketsGet s.buckets k = some b) :
    flagOf s k = b.exceeds_max_merged_line_limit := by
  simp [flagOf, h]

theorem flagOf_none (s : PartialEventMergeState) (k : String)
    (h : bucketsGet s.buckets k = none) : flagOf s k = false := by
  simp [flagOf, h]

theorem add_event_maybe (s : PartialEventMergeState) (e : LogEvent) (k mp : String)
    (exp now : Nat) :
    (add_event s e k mp exp now).1.maybe_max_merged_line_bytes =
      s.maybe_max_merged_line_bytes := by
  unfold add_event
  split
  · split
    · rfl
    · split
      · rfl
      · rfl
  · rfl

theorem add_event_diag_char (s : PartialEventMergeState) (e : LogEvent) (k mp : String)
    (exp now : Nat) :
    ((add_event s e k mp exp now).2 ≠ [] ↔
       (flagOf s k = false ∧ flagOf (add_event s e k mp exp now).1 k = true)) ∧
    (add_event s e k mp exp now).2.length ≤ 1 ∧
    (flagOf s k = true → flagOf (add_event s e k mp exp now).1 k = true) := by
  cases hb : bucketsGet s.buckets k with
  | none =>
    rw [add_event_new s e k mp exp now hb]
    have h1 : flagOf ({ s with
        buckets := s.buckets ++
          [(k, { event := e, expiration := now + exp,
                 exceeds_max_merged_line_limit :=
                   newEventHit s.maybe_max_merged_line_bytes (e.get mp) })] } :
        PartialEventMergeState) k =
        newEventHit s.maybe_max_merged_line_bytes (e.get mp) := by
      simp [flagOf, bucketsGet_append_self s.buckets k _ hb]
    refine ⟨?_, newEventDiag_length_le _ _, ?_⟩
    · constructor
      · intro hne
        exact ⟨flagOf_none s k hb, by rw [h1]; exact (newEventDiag_ne_nil_iff _ _).1 hne⟩
      · rintro ⟨_, hflag⟩
        rw [h1] at hflag
        exact (newEventDiag_ne_nil_iff _ _).2 hflag
    · intro h
      rw [flagOf_none s k hb] at h
      exact absurd h Bool.false_ne_true
  | some bucket =>
    by_cases hflag : bucket.exceeds_max_merged_line_limit = true
    · rw [add_event_flagged s e k mp exp now bucket hb hflag]
      refine ⟨?_, by simp, fun h => h⟩
      constructor
      · intro hne; exact absurd rfl hne
      · rintro ⟨hf, _⟩
        rw [flagOf_some s k bucket hb, hflag] at hf
        exact Bool.noConfusion hf
    · have hflag' : bucket.exceeds_max_merged_line_limit = false :=
        Bool.not_eq_true _ ▸ hflag
      by_cases hmsg : ∃ p q, bucket.event.get mp = some (Value.bytes p) ∧
          e.get mp = some (Value.bytes q)
      · obtain ⟨p, q, hp, hq⟩ := hmsg
        rw [add_event_merge s e k mp exp now bucket p q hb hflag' hp hq]
        have h1 : flagOf ({ s with
            buckets :=
              bucketsSet s.buckets k
                ({ event := bucket.event.set mp (Value.bytes (p ++ q)),
                   expiration := bucket.expiration,
                   exceeds_max_merged_line_limit :=
                     limitHit s.maybe_max_merged_line_bytes (p ++ q).length }) } :
            PartialEventMergeState) k =
            limitHit s.maybe_max_merged_line_bytes (p ++ q).length := by
          simp [flagOf, bucketsGet_set_self s.buckets k bucket _ hb]
        refine ⟨?_, limitDiag_length_le _ _ _, ?_⟩
        · constructor
          · intro hne
            refine ⟨by rw [flagOf_some s k bucket hb, hflag'], ?_⟩
            rw [h1]
            exact (limitDiag_ne_nil_iff _ _ _).1 hne
          · rintro ⟨_, hf⟩
            rw [h1] at hf
            exact (limitDiag_ne_nil_iff _ _ _).2 hf
        · intro h
          rw [flagOf_some s k bucket hb, hflag'] at h
          exact absurd h Bool.false_ne_true
      · have hnot : (∀ p, bucket.event.get mp ≠ some (Value.bytes p)) ∨
            (∀ q, e.get mp ≠ some (Value.bytes q)) := by
          by_cases hex : ∃ p, bucket.event.get mp = some (Value.bytes p)
          · obtain ⟨p, hp⟩ := hex
            right
            intro q hq
            exact hmsg ⟨p, q, hp, hq⟩
          · left
            intro p hp
            exact hex ⟨p, hp⟩
        rw [add_event_merge_noop s e k mp exp now bucket hb hflag' hnot]
        refine ⟨?_, by simp, fun h => h⟩
        constructor
        · intro hne; exact absurd rfl hne
        · rintro ⟨hf, hf'⟩
          rw [hf] at hf'
          exact absurd hf' Bool.false_ne_true

theorem add_chain_flag_mono (events : List LogEvent) :
    ∀ (s : PartialEventMergeState) (k mp : String) (exp now : Nat),
      flagOf s k = true → flagOf (add_chain s events k mp exp now).1 k = true := by
  induction events with
  | nil => intro s k mp exp now h; exact h
  | cons e rest ih =>
    intro s k mp exp now h
    simp only [add_chain]
    exact ih _ _ _ _ _ ((add_event_diag_char s e k mp exp now).2.2 h)

theorem add_chain_diag_count (events : List LogEvent) :
    ∀ (s : PartialEventMergeState) (k mp : String) (exp now : Nat),
      (add_chain s events k mp exp now).2.length =
        if flagOf s k = false ∧ flagOf (add_chain s events k mp exp now).1 k = true
        then 1 else 0 := by
  induction events with
  | nil =>
    intro s k mp exp now
    simp only [add_chain, List.length_nil]
    rw [if_neg]
    rintro ⟨h1, h2⟩
    rw [h1] at h2
    exact Bool.false_ne_true h2
  | cons e rest ih =>
    intro s k mp exp now
    have hchar := add_event_diag_char s e k mp exp now
    simp only [add_chain, List.length_append]
    rw [ih (add_event s e k mp exp now).1 k mp exp now]
    by_cases h0 : flagOf s k = false
    · by_cases h1 : flagOf (add_event s e k mp exp now).1 k = false
      · have hstep2 : (add_event s e k mp exp now).2 = [] := by
          by_contra hne
          obtain ⟨_, hf⟩ := hchar.1.1 hne
          rw [h1] at hf
          exact Bool.false_ne_true hf
        rw [hstep2]
        simp only [List.length_nil, Nat.zero_add]
        by_cases h2 : flagOf (add_chain (add_event s e k mp exp now).1 rest k mp exp now).1 k = true
        · rw [if_pos ⟨h1, h2⟩, if_pos ⟨h0, h2⟩]
        · rw [if_neg (fun hc => h2 hc.2), if_neg (fun hc => h2 hc.2)]
      · have h1' : flagOf (add_event s e k mp exp now).1 k = true := by
          revert h1
          cases flagOf (add_event s e k mp exp now).1 k <;> simp
        have hne : (add_event s e k mp exp now).2 ≠ [] := hchar.1.2 ⟨h0, h1'⟩
        have hlen : (add_event s e k mp exp now).2.length = 1 := by
          have hpos : 0 < (add_event s e k mp exp now).2.length := List.length_pos.mpr hne
          have hle := hchar.2.1
          omega
        have hfinal : flagOf (add_chain (add_event s e k mp exp now).1 rest k mp exp now).1 k = true :=
          add_chain_flag_mono rest _ _ _ _ _ h1'
        rw [hlen]
        rw [if_neg (fun hc => by rw [h1'] at hc; exact Bool.noConfusion hc.1)]
        rw [if_pos ⟨h0, hfinal⟩]
    · have h0' : flagOf s k = true := by
        revert h0
        cases flagOf s k <;> simp
      have hstep2 : (add_event s e k mp exp now).2 = [] := by
        by_contra hne
        obtain ⟨hf, _⟩ := hchar.1.1 hne
        rw [h0'] at hf
        exact Bool.noConfusion hf
      have h1' : flagOf (add_event s e k mp exp now).1 k = true := hchar.2.2 h0'
      rw [hstep2]
      simp only [List.length_nil, Nat.zero_add]
      rw [if_neg (fun hc => by rw [h1'] at hc; exact Bool.noConfusion hc.1)]
      rw [if_neg (fun hc => by rw [h0'] at hc; exact Bool.noConfusion hc.1)]

theorem hasBytesMessage_iff (e : LogEvent) (mp : String) :
    hasBytesMessage e mp = true ↔ ∃ b, e.get mp = some (Value.bytes b) := by
  unfold hasBytesMessage
  cases he : e.get mp with
  | none => simp
  | some v =>
    cases v with
    | bytes b => simp
    | boolean bb => simp
    | integer i => simp

theorem add_chain_merge_invariant (events : List LogEvent) :
    ∀ (s : PartialEventMergeState) (k mp : String) (exp now : Nat) (bucket : Bucket)
      (acc : List Nat),
      bucketsGet s.buckets k = some bucket →
      bucket.exceeds_max_merged_line_limit = false →
      bucket.event.get mp = some (Value.bytes acc) →
      (∀ e ∈ events, hasBytesMessage e mp = true) →
      underLimit s.maybe_max_merged_line_bytes
        (acc ++ (events.map (fun e => messageBytes e mp)).flatten).length = true →
      ∃ bucket',
        bucketsGet (add_chain s events k mp exp now).1.buckets k = some bucket' ∧
        bucket'.exceeds_max_merged_line_limit = false ∧
        bucket'.event.get mp =
          some (Value.bytes (acc ++ (events.map (fun e => messageBytes e mp)).flatten)) ∧
        bucket'.expiration = bucket.expiration ∧
        (add_chain s events k mp exp now).2 = [] ∧
        (add_chain s events k mp exp now).1.maybe_max_merged_line_bytes =
          s.maybe_max_merged_line_bytes := by
  induction events with
  | nil =>
    intro s k mp exp now bucket acc hb hflag hacc _ _
    simp only [add_chain, List.map_nil, List.flatten_nil, List.append_nil]
    refine ⟨bucket, hb, hflag, hacc, ?_, ?_, ?_⟩ <;> trivial
  | cons e rest ih =>
    intro s k mp exp now bucket acc hb hflag hacc hbytes hunder
    obtain ⟨q, hq⟩ := (hasBytesMessage_iff e mp).1 (hbytes e (List.mem_cons_self e rest))
    have hmb : messageBytes e mp = q := by simp [messageBytes, hq]
    simp only [List.map_cons, List.flatten_cons, hmb] at hunder ⊢
    have hlen1 : (acc ++ q).length ≤
        (acc ++ (q ++ (rest.map (fun e => messageBytes e mp)).flatten)).length := by
      simp only [List.length_append]
      omega
    have hhit : limitHit s.maybe_max_merged_line_bytes (acc ++ q).length = false :=
      limitHit_eq_false _ _ _ hlen1 hunder
    have hdiag : limitDiag s.maybe_max_merged_line_bytes q (acc ++ q).length = [] :=
      limitDiag_eq_nil _ _ _ _ hlen1 hunder
    have hstep := add_event_merge s e k mp exp now bucket acc q hb hflag hacc hq
    rw [hhit] at hstep
    simp only [add_chain, hstep, hdiag, List.nil_append]
    have hb1 : bucketsGet
        (bucketsSet s.buckets k
          ({ event := bucket.event.set mp (Value.bytes (acc ++ q)),
             expiration := bucket.expiration,
             exceeds_max_merged_line_limit := false })) k =
        some ({ event := bucket.event.set mp (Value.bytes (acc ++ q)),
                expiration := bucket.expiration,
                exceeds_max_merged_line_limit := false }) :=
      bucketsGet_set_self s.buckets k bucket _ hb
    have hacc1 : (bucket.event.set mp (Value.bytes (acc ++ q))).get mp =
        some (Value.bytes (acc ++ q)) :=
      LogEvent.get_set_self bucket.event mp _ _ hacc
    obtain ⟨bucket', h1, h2, h3, h4, h5, h6⟩ :=
      ih ({ s with
            buckets :=
              bucketsSet s.buckets k
                ({ event := bucket.event.set mp (Value.bytes (acc ++ q)),
                   expiration := bucket.expiration,
                   exceeds_max_merged_line_limit := false }) })
        k mp exp now _ (acc ++ q) hb1 rfl hacc1
        (fun e' he' => hbytes e' (List.mem_cons_of_mem e he'))
        (by simpa [List.append_assoc] using hunder)
    refine ⟨bucket', h1, h2, ?_, h4, h5, h6⟩
    simpa [List.append_assoc] using h3

theorem add_chain_fresh (events : List LogEvent) (s : PartialEventMergeState)
    (k mp : String) (exp now : Nat)
    (hfresh : bucketsGet s.buckets k = none)
    (hne : events ≠ [])
    (hbytes : ∀ e ∈ events, hasBytesMessage e mp = true)
    (hunder : underLimit s.maybe_max_merged_line_bytes
      ((events.map (fun e => messageBytes e mp)).flatten).length = true) :
    ∃ bucket',
      bucketsGet (add_chain s events k mp exp now).1.buckets k = some bucket' ∧
      bucket'.exceeds_max_merged_line_limit = false ∧
      bucket'.event.get mp =
        some (Value.bytes ((events.map (fun e => messageBytes e mp)).flatten)) ∧
      (add_chain s events k mp exp now).2 = [] := by
  cases events with
  | nil => exact absurd rfl hne
  | cons e rest =>
    obtain ⟨b0, hq⟩ := (hasBytesMessage_iff e mp).1 (hbytes e (List.mem_cons_self e rest))
    have hmb : messageBytes e mp = b0 := by simp [messageBytes, hq]
    simp only [List.map_cons, List.flatten_cons, hmb] at hunder ⊢
    have hlen0 : b0.length ≤ (b0 ++ (rest.map (fun e => messageBytes e mp)).flatten).length := by
      simp only [List.length_append]
      omega
    have hhit0 : newEventHit s.maybe_max_merged_line_bytes (e.get mp) = false := by
      rw [hq]
      exact limitHit_eq_false _ _ _ hlen0 hunder
    have hdiag0 : newEventDiag s.maybe_max_merged_line_bytes (e.get mp) = [] := by
      rw [hq]
      exact limitDiag_eq_nil _ _ _ _ hlen0 hunder
    have hstep := add_event_new s e k mp exp now hfresh
    rw [hhit0, hdiag0] at hstep
    simp only [add_chain, hstep, List.nil_append]
    have hb1 : bucketsGet
        (s.buckets ++
          [(k, { event := e, expiration := now + exp,
                 exceeds_max_merged_line_limit := false })]) k =
        some ({ event := e, expiration := now + exp,
                exceeds_max_merged_line_limit := false }) :=
      bucketsGet_append_self s.buckets k _ hfresh
    obtain ⟨bucket', h1, h2, h3, _, h5, _⟩ :=
      add_chain_merge_invariant rest
        ({ s with
            buckets :=
              s.buckets ++
                [(k, { event := e, expiration := now + exp,
                       exceeds_max_merged_line_limit := false })] })
        k mp exp now _ b0 hb1 rfl hq
        (fun e' he' => hbytes e' (List.mem_cons_of_mem e he'))
        hunder
    exact ⟨bucket', h1, h2, h3, h5⟩

theorem run_chain_eq (frags : List LogEvent) :
    ∀ (s : PartialEventMergeState) (t : LogEvent) (file mp : String) (exp now : Nat),
      run_chain s frags t file mp exp now =
        ((handle_classified_event (add_chain s frags file mp exp now).1 t false
            file mp exp now).1,
         (handle_classified_event (add_chain s frags file mp exp now).1 t false
            file mp exp now).2.2) := by
  induction frags with
  | nil => intro s t file mp exp now; rfl
  | cons e rest ih =>
    intro s t file mp exp now
    simp only [run_chain, add_chain]
    rw [ih]
    simp [handle_classified_event]

example :
    (add_event ⟨[], none⟩ ⟨[("message", Value.bytes [1, 2])]⟩ "f" "message" 30 0).1.buckets =
      [("f", ⟨⟨[("message", Value.bytes [1, 2])]⟩, 30, false⟩)] := by decide

example :
    (add_chain ⟨[], some 3⟩
      [⟨[("message", Value.bytes [1, 2])]⟩, ⟨[("message", Value.bytes [3, 4])]⟩]
      "f" "message" 30 0).2.length = 1 := by decide

example :
    (run_chain ⟨[], none⟩ [⟨[("message", Value.bytes [1])]⟩]
      ⟨[("message", Value.bytes [2])]⟩ "f" "message" 30 0).2 =
      [⟨[("message", Value.bytes [1, 2])]⟩] := by decide

theorem emit_expired_bucket_status (s : PartialEventMergeState) (now : Nat) (k : String)
    (b : Bucket) (hnodup : (s.buckets.map Prod.fst).Nodup)
    (hb : bucketsGet s.buckets k = some b) :
    bucketsGet (emit_expired_events s now).1.buckets k =
      (if now ≥ b.expiration then none else some b) := by
  have h := bucketsGet_filter (fun p => !(decide (now ≥ p.2.expiration))) s.buckets k b hnodup hb
  simp only [emit_expired_events]
  rw [h]
  by_cases hexp : now ≥ b.expiration <;> simp [hexp]

theorem emit_expired_emitted_sound (s : PartialEventMergeState) (now : Nat) (ev : LogEvent)
    (hev : ev ∈ (emit_expired_events s now).2) :
    ∃ p ∈ s.buckets, now ≥ p.2.expiration ∧
      p.2.exceeds_max_merged_line_limit = false ∧ p.2.event = ev := by
  simp only [emit_expired_events] at hev
  obtain ⟨p, hp, hpe⟩ := List.mem_map.1 hev
  obtain ⟨hmem, hpred⟩ := List.mem_filter.1 hp
  simp only [Bool.and_eq_true, decide_eq_true_eq, Bool.not_eq_true'] at hpred
  exact ⟨p, hmem, hpred.1, hpred.2, hpe⟩

theorem emit_expired_emitted_complete (s : PartialEventMergeState) (now : Nat)
    (p : String × Bucket) (hp : p ∈ s.buckets) (hexp : now ≥ p.2.expiration)
    (hflag : p.2.exceeds_max_merged_line_limit = false) :
    p.2.event ∈ (emit_expired_events s now).2 := by
  simp only [emit_expired_events]
  exact List.mem_map_of_mem _ (List.mem_filter.2 ⟨hp, by simp [hexp, hflag]⟩)

theorem flush_emitted_sound (s : PartialEventMergeState) (ev : LogEvent)
    (hev : ev ∈ (flush_events s).2) :
    ∃ p ∈ s.buckets, p.2.exceeds_max_merged_line_limit = false ∧ p.2.event = ev := by
  simp only [flush_events] at hev
  obtain ⟨p, hp, hpe⟩ := List.mem_map.1 hev
  obtain ⟨hmem, hpred⟩ := List.mem_filter.1 hp
  simp only [Bool.not_eq_true'] at hpred
  exact ⟨p, hmem, hpred, hpe⟩

theorem flush_emitted_complete (s : PartialEventMergeState) (p : String × Bucket)
    (hp : p ∈ s.buckets) (hflag : p.2.exceeds_max_merged_line_limit = false) :
    p.2.event ∈ (flush_events s).2 := by
  simp only [flush_events]
  exact List.mem_map_of_mem _ (List.mem_filter.2 ⟨hp, by simp [hflag]⟩)

/-- Concrete records, buckets and states used by witnesses and
counterexamples. -/
def evA : LogEvent := ⟨[("message", Value.bytes [1]), ("file", Value.bytes [10])]⟩

/-- A second concrete record with a different payload. -/
def evB : LogEvent := ⟨[("message", Value.bytes [2])]⟩

/-- A bucket for `evA` whose deadline (1) elapses first. -/
def bucketA : Bucket := ⟨evA, 1, false⟩

/-- A bucket for `evB` whose deadline (2) elapses second. -/
def bucketB : Bucket := ⟨evB, 2, false⟩

/-- A reachable state whose map iteration order lists the later-deadline
bucket first (a Rust `HashMap` orders its entries by hash, never by
deadline, so this arrangement is a possible iteration order). -/
def stateBA : PartialEventMergeState := ⟨[("kB", bucketB), ("kA", bucketA)], none⟩

/-- A bucket whose over-limit latch is set. -/
def bucketFlagged : Bucket := ⟨evA, 10, true⟩

/-- A state holding only the flagged bucket. -/
def stateFlagged : PartialEventMergeState := ⟨[("kA", bucketFlagged)], none⟩

/-- A stored record with no message field at all. -/
def storedNoMsg : LogEvent := ⟨[("foo", Value.integer 1)]⟩

/-- A bucket whose stored record lacks the message field. -/
def bucketNoMsg : Bucket := ⟨storedNoMsg, 10, false⟩

/-- A state holding only the message-less bucket. -/
def stateNoMsg : PartialEventMergeState := ⟨[("kA", bucketNoMsg)], none⟩

/-- An incoming fragment with byte payload `[7]`. -/
def incomingMsg : LogEvent := ⟨[("message", Value.bytes [7])]⟩

/-- C1: once a Bucket's `exceeds_max_merged_line_limit` latch is set,
`add_event` for its key leaves the state unchanged (no payload growth,
no diagnostic, the Bucket stays in the map), `remove_event` clears the
slot without returning its record, `emit_expired_events` keeps the
Bucket while unexpired and removes it once expired while everything a
sweep emits comes from an unflagged bucket, and `flush_events` empties
the map emitting only unflagged buckets' records — so the flagged
Bucket is resolved by completion, expiry or flush and discarded without
emission. -/
theorem c1_flagged_bucket_invariant (s : PartialEventMergeState) (k : String) (b : Bucket)
    (hb : bucketsGet s.buckets k = some b)
    (hflag : b.exceeds_max_merged_line_limit = true)
    (hnodup : (s.buckets.map Prod.fst).Nodup) :
    (∀ e mp exp now, add_event s e k mp exp now = (s, [])) ∧
    ((remove_event s k).2 = none ∧ bucketsGet (remove_event s k).1.buckets k = none) ∧
    (∀ now, bucketsGet (emit_expired_events s now).1.buckets k =
       (if now ≥ b.expiration then none else some b)) ∧
    (∀ now ev, ev ∈ (emit_expired_events s now).2 →
       ∃ p ∈ s.buckets, p.2.exceeds_max_merged_line_limit = false ∧ p.2.event = ev) ∧
    ((flush_events s).1.buckets = [] ∧
     ∀ ev ∈ (flush_events s).2,
       ∃ p ∈ s.buckets, p.2.exceeds_max_merged_line_limit = false ∧ p.2.event = ev) := by
  refine ⟨fun e mp exp now => add_event_flagged s e k mp exp now b hb hflag,
    ⟨?_, ?_⟩, fun now => emit_expired_bucket_status s now k b hnodup hb,
    fun now ev hev => ?_, rfl, fun ev hev => flush_emitted_sound s ev hev⟩
  · simp [remove_event, hb, hflag]
  · have h1 : (remove_event s k).1.buckets = bucketsRemove s.buckets k := by
      simp [remove_event, hb]
    rw [h1]
    exact bucketsGet_remove_self s.buckets k
  · obtain ⟨p, hp, _, h2, h3⟩ := emit_expired_emitted_sound s now ev hev
    exact ⟨p, hp, h2, h3⟩

/-- C1 witness: at the concrete flagged state, `add_event` is a no-op,
`remove_event` returns nothing, and the expired flagged bucket is
dropped by the sweep. -/
theorem c1_witness :
    add_event stateFlagged incomingMsg "kA" "message" 30 0 = (stateFlagged, []) ∧
    (remove_event stateFlagged "kA").2 = none ∧
    bucketsGet (emit_expired_events stateFlagged 20).1.buckets "kA" = none := by
  have h := c1_flagged_bucket_invariant stateFlagged "kA" bucketFlagged
    (by decide) (by decide) (by decide)
  refine ⟨h.1 incomingMsg "message" 30 0, h.2.1.1, ?_⟩
  rw [h.2.2.1 20]
  decide

/-- C4: `remove_event` returns a record exactly when a bucket is
present and unflagged; an absent key is a full no-op; whenever a bucket
exists, the call clears its slot regardless of the flag. -/
theorem c4_remove_event_spec (s : PartialEventMergeState) (k : String) :
    (bucketsGet s.buckets k = none → remove_event s k = (s, none)) ∧
    (∀ b, bucketsGet s.buckets k = some b →
       (remove_event s k).2 =
         (if b.exceeds_max_merged_line_limit then none else some b.event) ∧
       bucketsGet (remove_event s k).1.buckets k = none) ∧
    ((remove_event s k).2.isSome = true ↔
       ∃ b, bucketsGet s.buckets k = some b ∧
         b.exceeds_max_merged_line_limit = false) := by
  cases hb : bucketsGet s.buckets k with
  | none =>
    refine ⟨fun _ => by simp [remove_event, hb], fun b hb' => Option.noConfusion hb', ?_⟩
    constructor
    · intro h
      simp [remove_event, hb] at h
    · rintro ⟨b, hb', _⟩
      exact Option.noConfusion hb'
  | some b =>
    refine ⟨fun h => Option.noConfusion h, fun b' hb' => ?_, ?_⟩
    · obtain rfl : b = b' := Option.some.inj hb'
      constructor
      · simp [remove_event, hb]
      · have h1 : (remove_event s k).1.buckets = bucketsRemove s.buckets k := by
          simp [remove_event, hb]
        rw [h1]
        exact bucketsGet_remove_self s.buckets k
    · cases hflag : b.exceeds_max_merged_line_limit with
      | true =>
        constructor
        · intro h
          simp [remove_event, hb, hflag] at h
        · rintro ⟨b', hb', hflag'⟩
          obtain rfl : b = b' := Option.some.inj hb'
          rw [hflag] at hflag'
          exact Bool.noConfusion hflag'
      | false =>
        constructor
        · intro _
          exact ⟨b, rfl, hflag⟩
        · intro _
          simp [remove_event, hb, hflag]

/-- C4 witness: at the concrete state, removing an unflagged bucket
returns its record and clears the slot. -/
theorem c4_witness :
    (remove_event stateBA "kA").2 = some bucketA.event ∧
    bucketsGet (remove_event stateBA "kA").1.buckets "kA" = none := by
  have h := (c4_remove_event_spec stateBA "kA").2.1 bucketA (by decide)
  refine ⟨?_, h.2⟩
  rw [h.1]
  decide

/-- C5 counterexample: both buckets of `stateBA` are expired at time 5
and unflagged, `bucketA`'s deadline (1) elapses before `bucketB`'s (2),
yet a single sweep emits them in map iteration order — `bucketB` first —
not in the order their deadlines elapse. -/
theorem c5_counterexample :
    bucketA.expiration < bucketB.expiration ∧
    bucketA.exceeds_max_merged_line_limit = false ∧
    bucketB.exceeds_max_merged_line_limit = false ∧
    5 ≥ bucketA.expiration ∧ 5 ≥ bucketB.expiration ∧
    bucketsGet stateBA.buckets "kA" = some bucketA ∧
    bucketsGet stateBA.buckets "kB" = some bucketB ∧
    bucketA.event ≠ bucketB.event ∧
    (emit_expired_events stateBA 5).2 = [bucketB.event, bucketA.event] ∧
    (emit_expired_events stateBA 5).2 ≠ [bucketA.event, bucketB.event] := by
  decide

/-- C5 (amended): on every `emit_expired_events` call, every expired
bucket is removed from the map, an expired bucket is emitted exactly
when its over-limit flag is unset, non-expired buckets are left
unchanged, and the ceiling configuration is untouched; the emission
order within one sweep is the map's (arbitrary) iteration order, not
the order the deadlines elapse. -/
theorem c5_expiry_sweep (s : PartialEventMergeState) (now : Nat)
    (hnodup : (s.buckets.map Prod.fst).Nodup) :
    (∀ k b, bucketsGet s.buckets k = some b →
       bucketsGet (emit_expired_events s now).1.buckets k =
         (if now ≥ b.expiration then none else some b)) ∧
    (∀ p ∈ s.buckets, now ≥ p.2.expiration →
       p.2.exceeds_max_merged_line_limit = false →
       p.2.event ∈ (emit_expired_events s now).2) ∧
    (∀ ev ∈ (emit_expired_events s now).2,
       ∃ p ∈ s.buckets, now ≥ p.2.expiration ∧
         p.2.exceeds_max_merged_line_limit = false ∧ p.2.event = ev) ∧
    (emit_expired_events s now).1.maybe_max_merged_line_bytes =
      s.maybe_max_merged_line_bytes :=
  ⟨fun k b hb => emit_expired_bucket_status s now k b hnodup hb,
   fun p hp h1 h2 => emit_expired_emitted_complete s now p hp h1 h2,
   fun ev hev => emit_expired_emitted_sound s now ev hev, rfl⟩

/-- C5 witness: at the concrete state, the sweep at time 5 removes the
expired bucket at key kA and emits its record. -/
theorem c5_witness :
    bucketsGet (emit_expired_events stateBA 5).1.buckets "kA" = none ∧
    bucketA.event ∈ (emit_expired_events stateBA 5).2 := by
  have h := c5_expiry_sweep stateBA 5 (by decide)
  refine ⟨?_, h.2.1 ("kA", bucketA) (by decide) (by decide) (by decide)⟩
  rw [h.1 "kA" bucketA (by decide)]
  decide

/-- C6: `flush_events` leaves the map empty and emits exactly the
records of the unflagged buckets (one emission per unflagged bucket;
every emission stems from an unflagged bucket; every unflagged bucket's
record is emitted), dropping the flagged ones. -/
theorem c6_flush_events_spec (s : PartialEventMergeState) :
    (flush_events s).1.buckets = [] ∧
    (flush_events s).2.length =
      (s.buckets.filter (fun p => !p.2.exceeds_max_merged_line_limit)).length ∧
    (∀ ev ∈ (flush_events s).2,
       ∃ p ∈ s.buckets, p.2.exceeds_max_merged_line_limit = false ∧ p.2.event = ev) ∧
    (∀ p ∈ s.buckets, p.2.exceeds_max_merged_line_limit = false →
       p.2.event ∈ (flush_events s).2) :=
  ⟨rfl, by simp [flush_events], fun ev hev => flush_emitted_sound s ev hev,
   fun p hp hflag => flush_emitted_complete s p hp hflag⟩

/-- C6 witness: flushing the concrete two-bucket state empties the map
and emits both unflagged records. -/
theorem c6_witness :
    (flush_events stateBA).1.buckets = [] ∧
    (flush_events stateBA).2.length = 2 ∧
    bucketA.event ∈ (flush_events stateBA).2 := by
  have h := c6_flush_events_spec stateBA
  refine ⟨h.1, ?_, h.2.2.2 ("kA", bucketA) (by decide) (by decide)⟩
  rw [h.2.1]
  decide

theorem add_chain_append_fst (l1 l2 : List LogEvent) :
    ∀ (s : PartialEventMergeState) (k mp : String) (exp now : Nat),
      (add_chain s (l1 ++ l2) k mp exp now).1 =
        (add_chain (add_chain s l1 k mp exp now).1 l2 k mp exp now).1 := by
  induction l1 with
  | nil => intro s k mp exp now; simp [add_chain]
  | cons e rest ih =>
    intro s k mp exp now
    simp only [List.cons_append, add_chain]
    exact ih _ _ _ _ _

/-- A fragment used by chain witnesses: payload `[1]` plus an unrelated
field. -/
def evP1 : LogEvent := ⟨[("message", Value.bytes [1]), ("x", Value.integer 5)]⟩

/-- A terminator fragment used by chain witnesses: payload `[2, 3]`. -/
def evT : LogEvent := ⟨[("message", Value.bytes [2, 3])]⟩

/-- A fragment of two payload bytes, used to cross a one-byte ceiling. -/
def evBig : LogEvent := ⟨[("message", Value.bytes [1, 2])]⟩

/-- C2: driving one chain (partial fragments, then a non-partial
terminator) for a fresh grouping key through the per-item handler emits
exactly one record, whose payload is the byte-wise concatenation of all
the fragments' payloads in arrival order, whenever every fragment's
message resolves to bytes and the full concatenation stays within the
configured ceiling. -/
theorem c2_roundtrip_concatenation (s : PartialEventMergeState) (frags : List LogEvent)
    (t : LogEvent) (file mp : String) (exp now : Nat)
    (hfresh : bucketsGet s.buckets file = none)
    (hbytes : ∀ e ∈ frags ++ [t], hasBytesMessage e mp = true)
    (hunder : underLimit s.maybe_max_merged_line_bytes
      (((frags ++ [t]).map (fun e => messageBytes e mp)).flatten).length = true) :
    ∃ rec, (run_chain s frags t file mp exp now).2 = [rec] ∧
      rec.get mp =
        some (Value.bytes (((frags ++ [t]).map (fun e => messageBytes e mp)).flatten)) := by
  obtain ⟨bucket', h1, h2, h3, _⟩ :=
    add_chain_fresh (frags ++ [t]) s file mp exp now hfresh (by simp) hbytes hunder
  have hS : (add_event (add_chain s frags file mp exp now).1 t file mp exp now).1 =
      (add_chain s (frags ++ [t]) file mp exp now).1 := by
    rw [add_chain_append_fst frags [t] s file mp exp now]
    rfl
  have h1' : bucketsGet
      (add_event (add_chain s frags file mp exp now).1 t file mp exp now).1.buckets
      file = some bucket' := by
    rw [hS]; exact h1
  have hrem2 : (remove_event
      (add_event (add_chain s frags file mp exp now).1 t file mp exp now).1 file).2 =
      some bucket'.event := by
    simp [remove_event, h1', h2]
  refine ⟨bucket'.event, ?_, h3⟩
  rw [run_chain_eq frags s t file mp exp now]
  rcases hrm : remove_event
      (add_event (add_chain s frags file mp exp now).1 t file mp exp now).1 file
    with ⟨s2, r2⟩
  have hr2 : r2 = some bucket'.event := by
    rw [hrm] at hrem2
    exact hrem2
  subst hr2
  simp [handle_classified_event, hrm]

/-- C2 witness: a partial fragment with payload `[1]` followed by a
terminator with payload `[2, 3]` yields the single record `[1, 2, 3]`. -/
theorem c2_witness :
    ∃ rec, (run_chain ⟨[], some 10⟩ [evP1] evT "kA" "message" 30 0).2 = [rec] ∧
      rec.get "message" = some (Value.bytes [1, 2, 3]) := by
  obtain ⟨rec, h1, h2⟩ := c2_roundtrip_concatenation ⟨[], some 10⟩ [evP1] evT
    "kA" "message" 30 0 (by decide) (by decide) (by decide)
  refine ⟨rec, h1, ?_⟩
  rw [h2]
  decide

/-- C3 counterexample: the stored record of the bucket at key kA has no
message field and the incoming fragment carries payload `[7]`; the
claim predicts concatenation-with-missing-read-as-empty, i.e. a
resulting payload `[7]`, but `add_event` leaves the whole state
unchanged: the incoming payload is discarded, the bucket's payload
stays empty. -/
theorem c3_counterexample :
    bucketsGet stateNoMsg.buckets "kA" = some bucketNoMsg ∧
    bucketNoMsg.exceeds_max_merged_line_limit = false ∧
    bucketNoMsg.event.get "message" = none ∧
    incomingMsg.get "message" = some (Value.bytes [7]) ∧
    messageBytes bucketNoMsg.event "message" ++ messageBytes incomingMsg "message" = [7] ∧
    add_event stateNoMsg incomingMsg "kA" "message" 30 0 = (stateNoMsg, []) ∧
    Option.map (fun b => messageBytes b.event "message")
        (bucketsGet (add_event stateNoMsg incomingMsg "kA" "message" 30 0).1.buckets "kA") ≠
      some [7] := by
  decide

/-- C3 (amended): on `add_event` for an existing, unflagged Bucket, if
both the stored and the incoming message fields resolve to bytes the
Bucket's payload becomes their concatenation; if either is missing or
non-bytes the call is a no-op on the state (the incoming fragment is
discarded rather than read as an empty payload); in every case the call
returns normally, so no failure surfaces. -/
theorem c3_missing_message_no_failure :
    (∀ (s : PartialEventMergeState) (k : String) (bucket : Bucket) (e : LogEvent)
       (mp : String) (exp now : Nat) (p q : List Nat),
       bucketsGet s.buckets k = some bucket →
       bucket.exceeds_max_merged_line_limit = false →
       bucket.event.get mp = some (Value.bytes p) →
       e.get mp = some (Value.bytes q) →
       ∃ b2, bucketsGet (add_event s e k mp exp now).1.buckets k = some b2 ∧
         b2.event.get mp = some (Value.bytes (p ++ q))) ∧
    (∀ (s : PartialEventMergeState) (k : String) (bucket : Bucket) (e : LogEvent)
       (mp : String) (exp now : Nat),
       bucketsGet s.buckets k = some bucket →
       bucket.exceeds_max_merged_line_limit = false →
       ((∀ p, bucket.event.get mp ≠ some (Value.bytes p)) ∨
        (∀ q, e.get mp ≠ some (Value.bytes q))) →
       add_event s e k mp exp now = (s, [])) := by
  constructor
  · intro s k bucket e mp exp now p q hb hflag hp hq
    rw [add_event_merge s e k mp exp now bucket p q hb hflag hp hq]
    exact ⟨_, bucketsGet_set_self s.buckets k bucket _ hb,
      LogEvent.get_set_self bucket.event mp _ _ hp⟩
  · intro s k bucket e mp exp now hb hflag hnot
    exact add_event_merge_noop s e k mp exp now bucket hb hflag hnot

/-- C3 witness: merging `[7]` into the bucket holding `[1]` gives the
concatenated payload; the no-op branch is exercised by the
counterexample state. -/
theorem c3_witness :
    ∃ b2, bucketsGet (add_event stateBA incomingMsg "kA" "message" 30 5).1.buckets "kA" =
        some b2 ∧
      b2.event.get "message" = some (Value.bytes ([1] ++ [7])) :=
  c3_missing_message_no_failure.1 stateBA "kA" bucketA incomingMsg "message" 30 5 [1] [7]
    (by decide) (by decide) (by decide) (by decide)

/-- C7: an `add_event` call for a key whose Bucket already exists never
changes the Bucket's expiration: the deadline is fixed at creation. -/
theorem c7_expiration_not_renewed (s : PartialEventMergeState) (k : String) (b b2 : Bucket)
    (e : LogEvent) (mp : String) (exp now : Nat)
    (hb : bucketsGet s.buckets k = some b)
    (hb2 : bucketsGet (add_event s e k mp exp now).1.buckets k = some b2) :
    b2.expiration = b.expiration := by
  by_cases hflag : b.exceeds_max_merged_line_limit = true
  · rw [add_event_flagged s e k mp exp now b hb hflag] at hb2
    rw [hb] at hb2
    obtain rfl : b = b2 := Option.some.inj hb2
    rfl
  · have hflag' : b.exceeds_max_merged_line_limit = false := Bool.not_eq_true _ ▸ hflag
    by_cases hmsg : ∃ p q, b.event.get mp = some (Value.bytes p) ∧
        e.get mp = some (Value.bytes q)
    · obtain ⟨p, q, hp, hq⟩ := hmsg
      rw [add_event_merge s e k mp exp now b p q hb hflag' hp hq] at hb2
      have hset := bucketsGet_set_self s.buckets k b
        ({ event := b.event.set mp (Value.bytes (p ++ q)),
           expiration := b.expiration,
           exceeds_max_merged_line_limit :=
             limitHit s.maybe_max_merged_line_bytes (p ++ q).length }) hb
      rw [hset] at hb2
      obtain rfl := Option.some.inj hb2
      rfl
    · have hnot : (∀ p, b.event.get mp ≠ some (Value.bytes p)) ∨
          (∀ q, e.get mp ≠ some (Value.bytes q)) := by
        by_cases hex : ∃ p, b.event.get mp = some (Value.bytes p)
        · obtain ⟨p, hp⟩ := hex
          right
          intro q hq
          exact hmsg ⟨p, q, hp, hq⟩
        · left
          intro p hp
          exact hex ⟨p, hp⟩
      rw [add_event_merge_noop s e k mp exp now b hb hflag' hnot] at hb2
      rw [hb] at hb2
      obtain rfl : b = b2 := Option.some.inj hb2
      rfl

/-- C7 witness: merging a second fragment into `bucketA` (deadline 1)
at time 5 with a 30-unit window leaves the deadline at 1. -/
theorem c7_witness :
    (⟨⟨[("message", Value.bytes [1, 7]), ("file", Value.bytes [10])]⟩, 1, false⟩ :
      Bucket).expiration = bucketA.expiration :=
  c7_expiration_not_renewed stateBA "kA" bucketA
    ⟨⟨[("message", Value.bytes [1, 7]), ("file", Value.bytes [10])]⟩, 1, false⟩
    incomingMsg "message" 30 5 (by decide) (by decide)

/-- C8: a size-exceeded diagnostic is emitted by an `add_event` call
exactly when that call transitions the key's Bucket from unflagged (or
absent) to flagged; consequently a chain starting unflagged emits
exactly one diagnostic when it ends flagged and none otherwise — once
per chain, at the exact transition, never again. -/
theorem c8_diagnostic_once_per_chain :
    (∀ (s : PartialEventMergeState) (e : LogEvent) (k mp : String) (exp now : Nat),
       ((add_event s e k mp exp now).2 ≠ [] ↔
         (flagOf s k = false ∧ flagOf (add_event s e k mp exp now).1 k = true))) ∧
    (∀ (s : PartialEventMergeState) (events : List LogEvent) (k mp : String)
       (exp now : Nat),
       flagOf s k = false →
       (add_chain s events k mp exp now).2.length =
         (if flagOf (add_chain s events k mp exp now).1 k = true then 1 else 0)) := by
  constructor
  · intro s e k mp exp now
    exact (add_event_diag_char s e k mp exp now).1
  · intro s events k mp exp now h0
    rw [add_chain_diag_count events s k mp exp now]
    by_cases h : flagOf (add_chain s events k mp exp now).1 k = true
    · rw [if_pos ⟨h0, h⟩, if_pos h]
    · rw [if_neg (fun hc => h hc.2), if_neg h]

/-- C8 witness: a two-fragment chain crossing a one-byte ceiling emits
exactly one diagnostic. -/
theorem c8_witness :
    (add_chain ⟨[], some 1⟩ [evBig, evBig] "kA" "message" 30 0).2.length = 1 := by
  rw [c8_diagnostic_once_per_chain.2 ⟨[], some 1⟩ [evBig, evBig] "kA" "message" 30 0
    (by decide)]
  decide

/-- C9: with a ceiling `m` configured, the over-limit flag computed by
`add_event` — for a brand-new bucket from a single fragment, or for a
merge concatenating two byte payloads — is exactly `payload length >
m`, and the diagnostic is absent exactly when the length is at most
`m`: a payload of exactly `m` bytes sets no flag and emits nothing. -/
theorem c9_boundary_strict :
    (∀ (s : PartialEventMergeState) (k : String) (e : LogEvent) (mp : String)
       (exp now : Nat) (m : Nat) (b : List Nat),
       s.maybe_max_merged_line_bytes = some m →
       bucketsGet s.buckets k = none →
       e.get mp = some (Value.bytes b) →
       flagOf (add_event s e k mp exp now).1 k = decide (m < b.length) ∧
       ((add_event s e k mp exp now).2 = [] ↔ b.length ≤ m)) ∧
    (∀ (s : PartialEventMergeState) (k : String) (bucket : Bucket) (e : LogEvent)
       (mp : String) (exp now : Nat) (m : Nat) (p q : List Nat),
       s.maybe_max_merged_line_bytes = some m →
       bucketsGet s.buckets k = some bucket →
       bucket.exceeds_max_merged_line_limit = false →
       bucket.event.get mp = some (Value.bytes p) →
       e.get mp = some (Value.bytes q) →
       flagOf (add_event s e k mp exp now).1 k = decide (m < (p ++ q).length) ∧
       ((add_event s e k mp exp now).2 = [] ↔ (p ++ q).length ≤ m)) := by
  constructor
  · intro s k e mp exp now m b hm hb he
    rw [add_event_new s e k mp exp now hb]
    have h1 : flagOf ({ s with
        buckets := s.buckets ++
          [(k, { event := e, expiration := now + exp,
                 exceeds_max_merged_line_limit :=
                   newEventHit s.maybe_max_merged_line_bytes (e.get mp) })] } :
        PartialEventMergeState) k =
        newEventHit s.maybe_max_merged_line_bytes (e.get mp) := by
      simp [flagOf, bucketsGet_append_self s.buckets k _ hb]
    constructor
    · rw [h1, he, hm]
      rfl
    · show newEventDiag s.maybe_max_merged_line_bytes (e.get mp) = [] ↔ b.length ≤ m
      rw [he, hm]
      by_cases h : m < b.length
      · simp [newEventDiag, limitDiag, h]
      · simp [newEventDiag, limitDiag, h]
        omega
  · intro s k bucket e mp exp now m p q hm hb hflag hp hq
    rw [add_event_merge s e k mp exp now bucket p q hb hflag hp hq]
    have h1 : flagOf ({ s with
        buckets :=
          bucketsSet s.buckets k
            ({ event := bucket.event.set mp (Value.bytes (p ++ q)),
               expiration := bucket.expiration,
               exceeds_max_merged_line_limit :=
                 limitHit s.maybe_max_merged_line_bytes (p ++ q).length }) } :
        PartialEventMergeState) k =
        limitHit s.maybe_max_merged_line_bytes (p ++ q).length := by
      simp [flagOf, bucketsGet_set_self s.buckets k bucket _ hb]
    constructor
    · rw [h1, hm]
      rfl
    · show limitDiag s.maybe_max_merged_line_bytes q (p ++ q).length = [] ↔
        (p ++ q).length ≤ m
      rw [hm]
      by_cases h : m < (p ++ q).length
      · simp [limitDiag, h]
      · simp [limitDiag, h]

/-- C9 witness: a single fragment of exactly two bytes against a
two-byte ceiling sets no flag and emits no diagnostic. -/
theorem c9_witness :
    flagOf (add_event ⟨[], some 2⟩ evBig "kA" "message" 30 0).1 "kA" = false ∧
    (add_event ⟨[], some 2⟩ evBig "kA" "message" 30 0).2 = [] := by
  have h := c9_boundary_strict.1 ⟨[], some 2⟩ "kA" evBig "message" 30 0 2 [1, 2]
    rfl (by decide) (by decide)
  refine ⟨?_, h.2.2 (by decide)⟩
  rw [h.1]
  decide

/-- C10: when a later fragment is merged into an existing unflagged
Bucket, only the message field of the stored record changes (every
other field keeps the first fragment's value), and the outcome of the
call depends on the incoming record only through its message field —
every other field of the later fragment is discarded. -/
theorem c10_only_message_modified :
    (∀ (s : PartialEventMergeState) (k : String) (bucket : Bucket) (e : LogEvent)
       (mp : String) (exp now : Nat) (p q : List Nat) (b2 : Bucket),
       bucketsGet s.buckets k = some bucket →
       bucket.exceeds_max_merged_line_limit = false →
       bucket.event.get mp = some (Value.bytes p) →
       e.get mp = some (Value.bytes q) →
       bucketsGet (add_event s e k mp exp now).1.buckets k = some b2 →
       b2.event.get mp = some (Value.bytes (p ++ q)) ∧
       ∀ path, path ≠ mp → b2.event.get path = bucket.event.get path) ∧
    (∀ (s : PartialEventMergeState) (k : String) (bucket : Bucket) (e1 e2 : LogEvent)
       (mp : String) (exp now : Nat),
       bucketsGet s.buckets k = some bucket →
       e1.get mp = e2.get mp →
       add_event s e1 k mp exp now = add_event s e2 k mp exp now) := by
  constructor
  · intro s k bucket e mp exp now p q b2 hb hflag hp hq hb2
    rw [add_event_merge s e k mp exp now bucket p q hb hflag hp hq] at hb2
    have hset := bucketsGet_set_self s.buckets k bucket
      ({ event := bucket.event.set mp (Value.bytes (p ++ q)),
         expiration := bucket.expiration,
         exceeds_max_merged_line_limit :=
           limitHit s.maybe_max_merged_line_bytes (p ++ q).length }) hb
    rw [hset] at hb2
    obtain rfl := Option.some.inj hb2
    exact ⟨LogEvent.get_set_self bucket.event mp _ _ hp,
      fun path hpath => LogEvent.get_set_ne bucket.event mp path _ hpath⟩
  · intro s k bucket e1 e2 mp exp now hb heq
    by_cases hflag : bucket.exceeds_max_merged_line_limit = true
    · rw [add_event_flagged s e1 k mp exp now bucket hb hflag,
        add_event_flagged s e2 k mp exp now bucket hb hflag]
    · have hflag' : bucket.exceeds_max_merged_line_limit = false :=
        Bool.not_eq_true _ ▸ hflag
      by_cases hmsg : ∃ p q, bucket.event.get mp = some (Value.bytes p) ∧
          e1.get mp = some (Value.bytes q)
      · obtain ⟨p, q, hp, hq1⟩ := hmsg
        have hq2 : e2.get mp = some (Value.bytes q) := heq ▸ hq1
        rw [add_event_merge s e1 k mp exp now bucket p q hb hflag' hp hq1,
          add_event_merge s e2 k mp exp now bucket p q hb hflag' hp hq2]
      · have hnot1 : (∀ p, bucket.event.get mp ≠ some (Value.bytes p)) ∨
            (∀ q, e1.get mp ≠ some (Value.bytes q)) := by
          by_cases hex : ∃ p, bucket.event.get mp = some (Value.bytes p)
          · obtain ⟨p, hp⟩ := hex
            right
            intro q hq
            exact hmsg ⟨p, q, hp, hq⟩
          · left
            intro p hp
            exact hex ⟨p, hp⟩
        have hnot2 : (∀ p, bucket.event.get mp ≠ some (Value.bytes p)) ∨
            (∀ q, e2.get mp ≠ some (Value.bytes q)) := by
          rcases hnot1 with h | h
          · exact Or.inl h
          · right
            intro q hq
            exact h q (heq ▸ hq)
        rw [add_event_merge_noop s e1 k mp exp now bucket hb hflag' hnot1,
          add_event_merge_noop s e2 k mp exp now bucket hb hflag' hnot2]

/-- C10 witness: merging `[7]` into `bucketA` updates the message to
`[1] ++ [7]` and leaves the unrelated file field untouched. -/
theorem c10_witness :
    (⟨⟨[("message", Value.bytes [1, 7]), ("file", Value.bytes [10])]⟩, 1, false⟩ :
        Bucket).event.get "message" = some (Value.bytes ([1] ++ [7])) ∧
    (⟨⟨[("message", Value.bytes [1, 7]), ("file", Value.bytes [10])]⟩, 1, false⟩ :
        Bucket).event.get "file" = bucketA.event.get "file" := by
  have h := c10_only_message_modified.1 stateBA "kA" bucketA incomingMsg "message" 30 5
    [1] [7] ⟨⟨[("message", Value.bytes [1, 7]), ("file", Value.bytes [10])]⟩, 1, false⟩
    (by decide) (by decide) (by decide) (by decide) (by decide)
  exact ⟨h.1, h.2 "file" (by decide)⟩

end PartialEventsMerger
